import Mathlib

/-!
Shallow embedding of the Nadaraya-Watson envelope engine (src/nw_new.py):
the Gaussian kernel, the three regressor modes (non-repaint endpoint,
repaint-on-last, repaint-full-history) and the crossing-signal generator.
Floating-point arithmetic is idealized as exact real arithmetic; a NaN cell
of a numpy output array is modelled as `none : Option ℝ`.
-/

noncomputable section

open Finset

/-- Gaussian kernel (Pine-style, un-normalized): gauss(x,h) = exp(-(x^2)/(2 h^2)).
At h = 0 the Python float division raises ZeroDivisionError while this real
translation is total; every theorem below therefore uses it only at h ≠ 0,
where the translation is faithful. -/
def gauss (x h : ℝ) : ℝ := Real.exp (-(x * x) / (2 * h * h))

/-- The four columns (mid, upper, lower, mae) of the DataFrame returned by
nwe_norepaint; every cell holds a real number. -/
structure NweResult where
  mid : List ℝ
  upper : List ℝ
  lower : List ℝ
  mae : List ℝ

/-- The four columns of the DataFrames returned by the repaint variants;
a cell is none where the numpy array still holds (or has been fed) NaN. -/
structure NweResultOpt where
  mid : List (Option ℝ)
  upper : List (Option ℝ)
  lower : List (Option ℝ)
  mae : List (Option ℝ)

/-- nwe_norepaint, line w = [gauss(i,h) for i in range(W)] with W = min(window, 500). -/
def noRepWeights (h : ℝ) (window : ℕ) : List ℝ :=
  (List.range (min window 500)).map (fun (i : ℕ) => gauss (i : ℝ) h)

/-- nwe_norepaint, loop body: mid[t] = dot(w[:L], [src[t], src[t-1], ...]) / sum(w[:L])
with L = min(W, t+1). -/
def noRepMid (src : List ℝ) (h : ℝ) (window t : ℕ) : ℝ :=
  (List.zipWith (fun a b => a * b)
      ((noRepWeights h window).take (min (min window 500) (t + 1)))
      ((List.range (min (min window 500) (t + 1))).map (fun i => src.getD (t - i) 0))).sum
    / ((noRepWeights h window).take (min (min window 500) (t + 1))).sum

/-- nwe_norepaint: abs_err = |src - mid| elementwise. -/
def noRepAbsErr (src : List ℝ) (h : ℝ) (window : ℕ) : List ℝ :=
  List.zipWith (fun s m => |s - m|) src
    ((List.range src.length).map (noRepMid src h window))

/-- nwe_norepaint: mae = rolling mean of abs_err with window W, min_periods=1,
scaled by mult; at index t the rolling window holds min(W, t+1) samples. -/
def noRepMae (src : List ℝ) (h mult : ℝ) (window t : ℕ) : ℝ :=
  (((List.range (min (min window 500) (t + 1))).map
      (fun i => (noRepAbsErr src h window).getD (t - i) 0)).sum
    / (((min (min window 500) (t + 1) : ℕ)) : ℝ)) * mult

/-- Non-repaint endpoint method (nwe_norepaint): mid, then mae as a rolling SMA
of |src - mid|, then upper = mid + mae and lower = mid - mae. -/
def nwe_norepaint (src : List ℝ) (h mult : ℝ) (window : ℕ) : NweResult :=
  { mid := (List.range src.length).map (noRepMid src h window)
    upper := List.zipWith (fun a b => a + b)
      ((List.range src.length).map (noRepMid src h window))
      ((List.range src.length).map (noRepMae src h mult window))
    lower := List.zipWith (fun a b => a - b)
      ((List.range src.length).map (noRepMid src h window))
      ((List.range src.length).map (noRepMae src h mult window))
    mae := (List.range src.length).map (noRepMae src h mult window) }

/-- NaN-propagating addition of two float cells. -/
def oadd : Option ℝ → Option ℝ → Option ℝ
  | some a, some b => some (a + b)
  | _, _ => none

/-- NaN-propagating subtraction of two float cells. -/
def osub : Option ℝ → Option ℝ → Option ℝ
  | some a, some b => some (a - b)
  | _, _ => none

/-- Inner pairwise regression of the repaint variants, at local offset i with
series endpoint t and window length L:
y2 = (sum_j src[t-j] * gauss(i-j, h)) / (sum_j gauss(i-j, h)), guarded to NaN
when the weight sum is zero. -/
def nweLocalMid (src : List ℝ) (h : ℝ) (L t i : ℕ) : Option ℝ :=
  if (∑ j ∈ Finset.range L, gauss ((i : ℝ) - (j : ℝ)) h) ≠ 0 then
    some ((∑ j ∈ Finset.range L, src.getD (t - j) 0 * gauss ((i : ℝ) - (j : ℝ)) h)
      / (∑ j ∈ Finset.range L, gauss ((i : ℝ) - (j : ℝ)) h))
  else none

/-- Accumulation sae += |src[t-i] - y2| over the offsets i = 0..L-1; a NaN y2
poisons the accumulator. -/
def saeLoop (src : List ℝ) (h : ℝ) (L t : ℕ) : Option ℝ :=
  (List.range L).foldl
    (fun acc i =>
      oadd acc ((nweLocalMid src h L t i).map (fun y => |src.getD (t - i) 0 - y|)))
    (some 0)

/-- sae = (sae / L) * mult if L > 0 else NaN. -/
def saeFinal (src : List ℝ) (h mult : ℝ) (L t : ℕ) : Option ℝ :=
  if 0 < L then (saeLoop src h L t).map (fun s => s / (L : ℝ) * mult) else none

/-- The write-back loop of the repaint variants: for i in range(L), arr[t - i] = f i,
starting from the array state st. -/
def writeStep (st : ℕ → Option ℝ) (t L : ℕ) (f : ℕ → Option ℝ) : ℕ → Option ℝ :=
  (List.range L).foldl (fun st2 i => Function.update st2 (t - i) (f i)) st

/-- Repaint-on-last (nwe_repaint_on_last): the trailing L = min(window, n) offsets
are regressed pairwise against the final bar n-1, a single scalar sae is
accumulated, and the results are written back at absolute indices n-1-i;
all earlier cells keep their initial NaN. -/
def nwe_repaint_on_last (src : List ℝ) (h mult : ℝ) (window : ℕ) : NweResultOpt :=
  { mid := (List.range src.length).map
      (writeStep (fun _ => none) (src.length - 1) (min window src.length)
        (fun i => nweLocalMid src h (min window src.length) (src.length - 1) i))
    upper := (List.range src.length).map
      (writeStep (fun _ => none) (src.length - 1) (min window src.length)
        (fun i => oadd (nweLocalMid src h (min window src.length) (src.length - 1) i)
          (saeFinal src h mult (min window src.length) (src.length - 1))))
    lower := (List.range src.length).map
      (writeStep (fun _ => none) (src.length - 1) (min window src.length)
        (fun i => osub (nweLocalMid src h (min window src.length) (src.length - 1) i)
          (saeFinal src h mult (min window src.length) (src.length - 1))))
    mae := (List.range src.length).map
      (writeStep (fun _ => none) (src.length - 1) (min window src.length)
        (fun i => saeFinal src h mult (min window src.length) (src.length - 1))) }

/-- One output column of nwe_repaint_full_history: for t in range(n), the step
t writes f t i at position t - i for i in range(min(window, t+1)), overwriting
whatever earlier steps left there. -/
def fhColumn (n window : ℕ) (f : ℕ → ℕ → Option ℝ) : ℕ → Option ℝ :=
  (List.range n).foldl
    (fun st t => writeStep st t (min window (t + 1)) (f t))
    (fun _ => none)

/-- Repaint-full-history (nwe_repaint_full_history): every bar t is treated as the
last one; its pairwise regression values and scalar sae are written (overwritten)
at absolute positions t - i. -/
def nwe_repaint_full_history (src : List ℝ) (h mult : ℝ) (window : ℕ) : NweResultOpt :=
  { mid := (List.range src.length).map
      (fhColumn src.length window
        (fun t i => nweLocalMid src h (min window (t + 1)) t i))
    upper := (List.range src.length).map
      (fhColumn src.length window
        (fun t i => oadd (nweLocalMid src h (min window (t + 1)) t i)
          (saeFinal src h mult (min window (t + 1)) t)))
    lower := (List.range src.length).map
      (fhColumn src.length window
        (fun t i => osub (nweLocalMid src h (min window (t + 1)) t i)
          (saeFinal src h mult (min window (t + 1)) t)))
    mae := (List.range src.length).map
      (fhColumn src.length window
        (fun t i => saeFinal src h mult (min window (t + 1)) t)) }

/-- The index of the last simulation step of nwe_repaint_full_history that writes
absolute position p, for a series of length n: min(p + window - 1, n - 1). -/
def lastTouch (p window n : ℕ) : ℕ := min (p + window - 1) (n - 1)

/-- The bearish crossing test of generate_signals: src[k] > upband and src[k+1] < upband
with upband = mid[k] + mae[k]. -/
def bearishCond (p0 p1 m e : ℝ) : Prop := p0 > m + e ∧ p1 < m + e

/-- The bullish crossing test of generate_signals: src[k] < loband and src[k+1] > loband
with loband = mid[k] - mae[k]. -/
def bullishCond (p0 p1 m e : ℝ) : Prop := p0 < m - e ∧ p1 > m - e

instance (p0 p1 m e : ℝ) : Decidable (bearishCond p0 p1 m e) := by
  unfold bearishCond; infer_instance

instance (p0 p1 m e : ℝ) : Decidable (bullishCond p0 p1 m e) := by
  unfold bullishCond; infer_instance

/-- One iteration of the generate_signals loop: skip if any of mid[k], mid[k+1],
mae[k] is NaN; else first the bearish test may set sig[k+1] = -1, then the
bullish test may set sig[k+1] = 1. -/
def sigStep (src : List ℝ) (mid mae : List (Option ℝ)) (sig : ℕ → ℤ) (k : ℕ) : ℕ → ℤ :=
  match mid.getD k none, mid.getD (k + 1) none, mae.getD k none with
  | some m, some _, some e =>
    if bullishCond (src.getD k 0) (src.getD (k + 1) 0) m e then
      Function.update
        (if bearishCond (src.getD k 0) (src.getD (k + 1) 0) m e then
          Function.update sig (k + 1) (-1) else sig)
        (k + 1) 1
    else
      if bearishCond (src.getD k 0) (src.getD (k + 1) 0) m e then
        Function.update sig (k + 1) (-1) else sig
  | _, _, _ => sig

/-- generate_signals: the loop over k in range(n - 1), starting from an all-zero
signal array. -/
def generate_signals (src : List ℝ) (mid mae : List (Option ℝ)) : List ℤ :=
  (List.range src.length).map
    ((List.range (src.length - 1)).foldl (sigStep src mid mae) (fun _ => 0))

/-- Reading position p of a materialized column of length n. -/
lemma getD_map_range {α : Type} (f : ℕ → α) (n p : ℕ) (d : α) :
    ((List.range n).map f).getD p d = if p < n then f p else d := by
  by_cases hp : p < n
  · rw [List.getD_eq_getElem?_getD, List.getElem?_map, List.getElem?_range hp]
    simp [hp]
  · rw [List.getD_eq_getElem?_getD, List.getElem?_map, List.getElem?_eq_none]
    · simp [hp]
    · simpa using Nat.le_of_not_lt hp

/-- A mapped range sums like the corresponding Finset sum. -/
lemma sum_map_range (f : ℕ → ℝ) (n : ℕ) :
    ((List.range n).map f).sum = ∑ i ∈ Finset.range n, f i := by
  induction n with
  | zero => simp
  | succ m ih =>
      rw [List.range_succ, List.map_append, List.sum_append, Finset.sum_range_succ, ih]
      simp

/-- The Gaussian kernel magnitude is strictly positive at every offset and
bandwidth. -/
lemma gauss_pos (x h : ℝ) : 0 < gauss x h := Real.exp_pos _

/-- At offset zero the kernel weight is exactly one. -/
lemma gauss_zero (h : ℝ) : gauss 0 h = 1 := by simp [gauss]

/-- Every pairwise weight sum of the repaint regressions over a nonempty window
is strictly positive. -/
lemma pairSum_pos (L : ℕ) (hL : 1 ≤ L) (i : ℕ) (h : ℝ) :
    0 < ∑ j ∈ Finset.range L, gauss ((i : ℝ) - (j : ℝ)) h :=
  Finset.sum_pos (fun j _ => gauss_pos _ _) (Finset.nonempty_range_iff.mpr (by omega))

/-- Over a nonempty window the guard of nweLocalMid always takes the division
branch. -/
lemma nweLocalMid_eq (src : List ℝ) (h : ℝ) (L t i : ℕ) (hL : 1 ≤ L) :
    nweLocalMid src h L t i
      = some ((∑ j ∈ Finset.range L, src.getD (t - j) 0 * gauss ((i : ℝ) - (j : ℝ)) h)
          / (∑ j ∈ Finset.range L, gauss ((i : ℝ) - (j : ℝ)) h)) := by
  unfold nweLocalMid
  rw [if_pos (ne_of_gt (pairSum_pos L hL i h))]

/-- Over a nonempty window nweLocalMid is defined. -/
lemma nweLocalMid_isSome (src : List ℝ) (h : ℝ) (L t i : ℕ) (hL : 1 ≤ L) :
    (nweLocalMid src h L t i).isSome := by
  rw [nweLocalMid_eq src h L t i hL]
  rfl

/-- The sae accumulation loop in closed form, for any family of defined local
mids. -/
lemma foldl_oadd_abs (v : ℕ → ℝ) (g : ℕ → Option ℝ) (m : ℕ)
    (hg : ∀ i, i < m → (g i).isSome) (a : ℝ) :
    (List.range m).foldl (fun acc i => oadd acc ((g i).map (fun y => |v i - y|))) (some a)
      = some (a + ∑ i ∈ Finset.range m, |v i - (g i).getD 0|) := by
  induction m generalizing a with
  | zero => simp
  | succ k ih =>
      rw [List.range_succ, List.foldl_append, List.foldl_cons, List.foldl_nil]
      rw [ih (fun i hi => hg i (by omega))]
      obtain ⟨y, hy⟩ := Option.isSome_iff_exists.mp (hg k (by omega))
      rw [hy]
      show some (a + ∑ i ∈ Finset.range k, |v i - (g i).getD 0| + |v k - y|) = _
      rw [Finset.sum_range_succ, hy]
      show _ = some (a + ((∑ i ∈ Finset.range k, |v i - (g i).getD 0|) + |v k - (some y).getD 0|))
      rw [← add_assoc]
      rfl

/-- The sae loop of the repaint variants in closed form. -/
lemma saeLoop_eq (src : List ℝ) (h : ℝ) (L t : ℕ) (hL : 1 ≤ L) :
    saeLoop src h L t
      = some (∑ i ∈ Finset.range L,
          |src.getD (t - i) 0 - (nweLocalMid src h L t i).getD 0|) := by
  unfold saeLoop
  rw [foldl_oadd_abs (fun i => src.getD (t - i) 0) (fun i => nweLocalMid src h L t i) L
    (fun i _ => nweLocalMid_isSome src h L t i hL) 0]
  rw [zero_add]

/-- The scalar sae of the repaint variants in closed form. -/
lemma saeFinal_eq (src : List ℝ) (h mult : ℝ) (L t : ℕ) (hL : 1 ≤ L) :
    saeFinal src h mult L t
      = some ((∑ i ∈ Finset.range L,
          |src.getD (t - i) 0 - (nweLocalMid src h L t i).getD 0|) / (L : ℝ) * mult) := by
  unfold saeFinal
  rw [if_pos (by omega : 0 < L), saeLoop_eq src h L t hL]
  rfl

/-- Reading the array state after one write-back loop: position p holds the
value of local offset t - p when the loop reached it, and is untouched
otherwise. -/
lemma writeStep_apply (st : ℕ → Option ℝ) (t L : ℕ) (f : ℕ → Option ℝ) (p : ℕ)
    (hL : L ≤ t + 1) :
    writeStep st t L f p = if p ≤ t ∧ t - p < L then f (t - p) else st p := by
  induction L with
  | zero => simp [writeStep]
  | succ m ih =>
      have hstep : writeStep st t (m + 1) f
          = Function.update (writeStep st t m f) (t - m) (f m) := by
        unfold writeStep
        rw [List.range_succ, List.foldl_append, List.foldl_cons, List.foldl_nil]
      rw [hstep, Function.update_apply]
      by_cases hp : p = t - m
      · subst hp
        have h2 : t - (t - m) = m := by omega
        rw [if_pos rfl, if_pos ⟨Nat.sub_le t m, by omega⟩, h2]
      · rw [if_neg hp, ih (by omega)]
        by_cases hc : p ≤ t ∧ t - p < m
        · rw [if_pos hc, if_pos ⟨hc.1, by omega⟩]
        · have hc2 : ¬(p ≤ t ∧ t - p < m + 1) := by omega
          rw [if_neg hc, if_neg hc2]

/-- Reading a column of the full-history replay: position p < n holds the value
written by the last simulation step that touched it, lastTouch p window n. -/
lemma fhColumn_apply (n window : ℕ) (f : ℕ → ℕ → Option ℝ) (hW : 1 ≤ window) (p : ℕ) :
    fhColumn n window f p
      = if p < n then f (lastTouch p window n) (lastTouch p window n - p) else none := by
  induction n with
  | zero => simp [fhColumn]
  | succ m ih =>
      have hstep : fhColumn (m + 1) window f
          = writeStep (fhColumn m window f) m (min window (m + 1)) (f m) := by
        unfold fhColumn
        rw [List.range_succ, List.foldl_append, List.foldl_cons, List.foldl_nil]
      rw [hstep, writeStep_apply _ _ _ _ _ (Nat.min_le_right _ _)]
      by_cases hc : p ≤ m ∧ m - p < min window (m + 1)
      · have hlt : lastTouch p window (m + 1) = m := by
          unfold lastTouch; omega
        rw [if_pos hc, if_pos (by omega : p < m + 1), hlt]
      · rw [if_neg hc, ih]
        by_cases hpm : p < m + 1
        · have hp2 : p < m := by omega
          have heq : lastTouch p window (m + 1) = lastTouch p window m := by
            unfold lastTouch; omega
          rw [if_pos hp2, if_pos hpm, heq]
        · rw [if_neg (by omega : ¬ p < m), if_neg hpm]

/-- The cached weight slice of nwe_norepaint is the kernel evaluated on the
effective window. -/
lemma take_noRepWeights (h : ℝ) (window t : ℕ) :
    (noRepWeights h window).take (min (min window 500) (t + 1))
      = (List.range (min (min window 500) (t + 1))).map (fun (i : ℕ) => gauss (i : ℝ) h) := by
  unfold noRepWeights
  have hmm : min (min (min window 500) (t + 1)) (min window 500)
      = min (min window 500) (t + 1) := by omega
  rw [← List.map_take, List.take_range, hmm]

/-- The dot product of two equally indexed mapped ranges as a Finset sum. -/
lemma zipWith_mul_sum (g v : ℕ → ℝ) (L : ℕ) :
    (List.zipWith (fun a b => a * b) ((List.range L).map g) ((List.range L).map v)).sum
      = ∑ i ∈ Finset.range L, g i * v i := by
  rw [List.zipWith_map, List.zipWith_same, sum_map_range]

/-- The endpoint regression of nwe_norepaint in closed form:
mid[t] is the kernel-weighted average of the trailing min(min(window,500), t+1)
samples. -/
lemma noRepMid_eq (src : List ℝ) (h : ℝ) (window t : ℕ) :
    noRepMid src h window t
      = (∑ i ∈ Finset.range (min (min window 500) (t + 1)), gauss (i : ℝ) h * src.getD (t - i) 0)
        / (∑ i ∈ Finset.range (min (min window 500) (t + 1)), gauss (i : ℝ) h) := by
  unfold noRepMid
  rw [take_noRepWeights, zipWith_mul_sum, sum_map_range]

/-- The divisor of the endpoint regression is at least the weight of lag zero,
which is one. -/
lemma noRepWeightSum_ge_one (h : ℝ) (L : ℕ) (hL : 1 ≤ L) :
    (1 : ℝ) ≤ ∑ i ∈ Finset.range L, gauss (i : ℝ) h := by
  have h0 : gauss ((0 : ℕ) : ℝ) h ≤ ∑ i ∈ Finset.range L, gauss (i : ℝ) h :=
    Finset.single_le_sum (fun i _ => le_of_lt (gauss_pos _ _))
      (Finset.mem_range.mpr (by omega))
  have : gauss ((0 : ℕ) : ℝ) h = 1 := by
    rw [Nat.cast_zero, gauss_zero]
  rw [this] at h0
  exact h0

/-- Reading position p of an output column of nwe_repaint_on_last: it holds the
value of local offset n-1-p when the trailing window reaches it, NaN otherwise. -/
lemma rol_col_getD (g : ℕ → Option ℝ) (n window p : ℕ) (hp : p < n) :
    ((List.range n).map (writeStep (fun _ => none) (n - 1) (min window n) g)).getD p none
      = if n - min window n ≤ p then g (n - 1 - p) else none := by
  rw [getD_map_range, if_pos hp, writeStep_apply _ _ _ _ _ (by omega)]
  by_cases hc : p ≤ n - 1 ∧ (n - 1) - p < min window n
  · rw [if_pos hc, if_pos (by omega)]
  · rw [if_neg hc, if_neg (by omega)]

/-- The value the generate_signals iteration for pair (k, k+1) leaves at
position k+1 when that position held zero: 1 for a bullish cross, else -1 for
a bearish cross, else 0, and 0 whenever an input is NaN. -/
def sigVal (src : List ℝ) (mid mae : List (Option ℝ)) (k : ℕ) : ℤ :=
  match mid.getD k none, mid.getD (k + 1) none, mae.getD k none with
  | some m, some _, some e =>
    if bullishCond (src.getD k 0) (src.getD (k + 1) 0) m e then 1
    else if bearishCond (src.getD k 0) (src.getD (k + 1) 0) m e then -1
    else 0
  | _, _, _ => 0

/-- The iteration for pair (k, k+1) writes nowhere but position k+1. -/
lemma sigStep_apply_other (src : List ℝ) (mid mae : List (Option ℝ)) (sig : ℕ → ℤ)
    (k q : ℕ) (hq : q ≠ k + 1) :
    sigStep src mid mae sig k q = sig q := by
  unfold sigStep
  cases mid.getD k none with
  | none => rfl
  | some m =>
      cases mid.getD (k + 1) none with
      | none => rfl
      | some m2 =>
          cases mae.getD k none with
          | none => rfl
          | some e =>
              dsimp only
              split_ifs <;> simp [Function.update_apply, hq]

/-- The iteration for pair (k, k+1), applied to a state holding zero at k+1,
leaves sigVal there. -/
lemma sigStep_apply_self (src : List ℝ) (mid mae : List (Option ℝ)) (sig : ℕ → ℤ)
    (k : ℕ) (hz : sig (k + 1) = 0) :
    sigStep src mid mae sig k (k + 1) = sigVal src mid mae k := by
  unfold sigStep sigVal
  cases mid.getD k none with
  | none => exact hz
  | some m =>
      cases mid.getD (k + 1) none with
      | none => exact hz
      | some m2 =>
          cases mae.getD k none with
          | none => exact hz
          | some e =>
              dsimp only
              split_ifs <;> simp [Function.update_apply, hz]

/-- The generate_signals loop in closed form: position q holds the value its
unique writer, the iteration for pair (q-1, q), computed; position 0 and
positions past the loop stay zero. -/
lemma sig_foldl_apply (src : List ℝ) (mid mae : List (Option ℝ)) (m q : ℕ) :
    (List.range m).foldl (sigStep src mid mae) (fun _ => 0) q
      = if 1 ≤ q ∧ q ≤ m then sigVal src mid mae (q - 1) else 0 := by
  induction m with
  | zero =>
      rw [if_neg (by omega)]
      rfl
  | succ j ih =>
      rw [List.range_succ, List.foldl_append, List.foldl_cons, List.foldl_nil]
      by_cases hq : q = j + 1
      · subst hq
        rw [sigStep_apply_self src mid mae _ j (by rw [ih, if_neg (by omega)])]
        rw [if_pos ⟨by omega, le_refl _⟩]
        norm_num
      · rw [sigStep_apply_other src mid mae _ j q hq, ih]
        by_cases h1 : 1 ≤ q ∧ q ≤ j
        · rw [if_pos h1, if_pos ⟨h1.1, by omega⟩]
        · rw [if_neg h1, if_neg (by omega)]

/-- Reading the signal series at a position inside the series. -/
lemma generate_signals_getD (src : List ℝ) (mid mae : List (Option ℝ)) (q : ℕ)
    (hq : q < src.length) :
    (generate_signals src mid mae).getD q 0
      = if 1 ≤ q ∧ q ≤ src.length - 1 then sigVal src mid mae (q - 1) else 0 := by
  unfold generate_signals
  rw [getD_map_range, if_pos hq, sig_foldl_apply]

/-- The endpoint regression at index t only reads the series at indices up to t. -/
lemma noRepMid_congr (src src' : List ℝ) (h : ℝ) (window t : ℕ)
    (hagree : ∀ j, j ≤ t → src'.getD j 0 = src.getD j 0) :
    noRepMid src' h window t = noRepMid src h window t := by
  rw [noRepMid_eq, noRepMid_eq]
  congr 1
  apply Finset.sum_congr rfl
  intro i _
  rw [hagree (t - i) (Nat.sub_le t i)]

/-- Truncation past index t does not change the series below t. -/
lemma getD_take_le (l : List ℝ) (j t : ℕ) (hj : j ≤ t) :
    (l.take (t + 1)).getD j 0 = l.getD j 0 := by
  rw [List.getD_eq_getElem?_getD, List.getD_eq_getElem?_getD, List.getElem?_take]
  simp [Nat.lt_succ_of_le hj]

/-- Appending samples does not change the series below its original length. -/
lemma getD_append_left (l l' : List ℝ) (j : ℕ) (hj : j < l.length) :
    (l ++ l').getD j 0 = l.getD j 0 := by
  rw [List.getD_eq_getElem?_getD, List.getD_eq_getElem?_getD, List.getElem?_append]
  simp [hj]

/-- C1: Causality of the non-repaint EndpointRegressor: for every price series,
valid parameters (h > 0, window ≥ 1) and index t inside the series, mid[t]
computed by nwe_norepaint on the series truncated to length t+1 equals mid[t]
computed on the full series, and mid[t] is unchanged when further samples are
appended — mid[t] depends only on price[0..t]. -/
theorem C1_norepaint_causal (src ys : List ℝ) (h mult : ℝ) (window t : ℕ)
    (hh : 0 < h) (hw : 1 ≤ window) (ht : t < src.length) :
    ((nwe_norepaint (src.take (t + 1)) h mult window).mid.getD t 0
        = (nwe_norepaint src h mult window).mid.getD t 0)
      ∧ ((nwe_norepaint (src ++ ys) h mult window).mid.getD t 0
        = (nwe_norepaint src h mult window).mid.getD t 0) := by
  have hlen : (src.take (t + 1)).length = t + 1 := by
    rw [List.length_take]; omega
  constructor
  · unfold nwe_norepaint
    dsimp only
    rw [getD_map_range, getD_map_range, hlen, if_pos (Nat.lt_succ_self t), if_pos ht]
    exact noRepMid_congr src (src.take (t + 1)) h window t
      (fun j hj => getD_take_le src j t hj)
  · unfold nwe_norepaint
    dsimp only
    rw [getD_map_range, getD_map_range, List.length_append,
      if_pos (by omega : t < src.length + ys.length), if_pos ht]
    exact noRepMid_congr src (src ++ ys) h window t
      (fun j hj => getD_append_left src ys j (by omega))

/-- C1 witness: the causality theorem applied at the concrete series [1, 2]
extended by [3], at index t = 1. -/
theorem C1_norepaint_causal_witness :
    ((nwe_norepaint (([1, 2] : List ℝ).take (1 + 1)) 1 1 2).mid.getD 1 0
        = (nwe_norepaint [1, 2] 1 1 2).mid.getD 1 0)
      ∧ ((nwe_norepaint (([1, 2] : List ℝ) ++ [3]) 1 1 2).mid.getD 1 0
        = (nwe_norepaint [1, 2] 1 1 2).mid.getD 1 0) :=
  C1_norepaint_causal [1, 2] [3] 1 1 2 1 (by norm_num) (by norm_num) (by norm_num)

/-- C2: EndpointRegressor postcondition: mid[t] is the Gaussian-weighted average
of the trailing L = min(W, t+1) samples with weight(i) = gauss(i, h); at the
concrete input price = [1,2,3,10,3,2,1], h = 1, window = 3, errorMultiplier = 1,
mid[3] is the blend of price[3], price[2], price[1] = 10, 3, 2 with weights
exp(0), exp(-1/2), exp(-2), normalized (exact real arithmetic, so within any
tolerance). -/
theorem C2_endpoint_postcondition :
    (∀ (src : List ℝ) (h mult : ℝ) (window t : ℕ), t < src.length →
      (nwe_norepaint src h mult window).mid.getD t 0
        = (∑ i ∈ Finset.range (min (min window 500) (t + 1)),
            gauss (i : ℝ) h * src.getD (t - i) 0)
          / (∑ i ∈ Finset.range (min (min window 500) (t + 1)), gauss (i : ℝ) h))
    ∧ (nwe_norepaint [1, 2, 3, 10, 3, 2, 1] 1 1 3).mid.getD 3 0
        = (Real.exp 0 * 10 + Real.exp (-(1 / 2)) * 3 + Real.exp (-2) * 2)
          / (Real.exp 0 + Real.exp (-(1 / 2)) + Real.exp (-2)) := by
  have hgen : ∀ (src : List ℝ) (h mult : ℝ) (window t : ℕ), t < src.length →
      (nwe_norepaint src h mult window).mid.getD t 0
        = (∑ i ∈ Finset.range (min (min window 500) (t + 1)),
            gauss (i : ℝ) h * src.getD (t - i) 0)
          / (∑ i ∈ Finset.range (min (min window 500) (t + 1)), gauss (i : ℝ) h) := by
    intro src h mult window t ht
    unfold nwe_norepaint
    dsimp only
    rw [getD_map_range, if_pos ht, noRepMid_eq]
  refine ⟨hgen, ?_⟩
  rw [hgen [1, 2, 3, 10, 3, 2, 1] 1 1 3 3 (by norm_num)]
  rw [(by omega : min (min 3 500) (3 + 1) = 3)]
  norm_num [Finset.sum_range_succ, gauss, List.getD, Real.exp_zero]

/-- C3 (amended): HistoryReplaySimulator overwrite semantics: for every absolute
position p < n the final stored mid/mae/upper/lower values equal the values
written during the simulation step with the largest t that touched p; that
largest step is lastTouch p window n = min(p + window - 1, n - 1) — not p
itself — and within it p is written at local offset lastTouch - p. -/
theorem C3_fullhistory_lastwriter (src : List ℝ) (h mult : ℝ) (window p : ℕ)
    (hw : 1 ≤ window) (hp : p < src.length) :
    ((nwe_repaint_full_history src h mult window).mid.getD p none
        = nweLocalMid src h (min window (lastTouch p window src.length + 1))
            (lastTouch p window src.length) (lastTouch p window src.length - p))
    ∧ ((nwe_repaint_full_history src h mult window).mae.getD p none
        = saeFinal src h mult (min window (lastTouch p window src.length + 1))
            (lastTouch p window src.length))
    ∧ ((nwe_repaint_full_history src h mult window).upper.getD p none
        = oadd (nweLocalMid src h (min window (lastTouch p window src.length + 1))
              (lastTouch p window src.length) (lastTouch p window src.length - p))
            (saeFinal src h mult (min window (lastTouch p window src.length + 1))
              (lastTouch p window src.length)))
    ∧ ((nwe_repaint_full_history src h mult window).lower.getD p none
        = osub (nweLocalMid src h (min window (lastTouch p window src.length + 1))
              (lastTouch p window src.length) (lastTouch p window src.length - p))
            (saeFinal src h mult (min window (lastTouch p window src.length + 1))
              (lastTouch p window src.length)))
    ∧ (p ≤ lastTouch p window src.length
        ∧ lastTouch p window src.length < src.length
        ∧ lastTouch p window src.length - p
            < min window (lastTouch p window src.length + 1))
    ∧ (∀ u, u < src.length → p ≤ u → u - p < min window (u + 1)
        → u ≤ lastTouch p window src.length) := by
  refine ⟨?_, ?_, ?_, ?_, ⟨?_, ?_, ?_⟩, ?_⟩
  · unfold nwe_repaint_full_history
    dsimp only
    rw [getD_map_range, if_pos hp, fhColumn_apply _ _ _ hw, if_pos hp]
  · unfold nwe_repaint_full_history
    dsimp only
    rw [getD_map_range, if_pos hp, fhColumn_apply _ _ _ hw, if_pos hp]
  · unfold nwe_repaint_full_history
    dsimp only
    rw [getD_map_range, if_pos hp, fhColumn_apply _ _ _ hw, if_pos hp]
  · unfold nwe_repaint_full_history
    dsimp only
    rw [getD_map_range, if_pos hp, fhColumn_apply _ _ _ hw, if_pos hp]
  · unfold lastTouch; omega
  · unfold lastTouch; omega
  · unfold lastTouch; omega
  · intro u hu h1 h2
    unfold lastTouch
    omega

/-- C3 witness: the last-writer theorem applied at the series [0, 1] with h = 1,
mult = 1, window = 2, position p = 0. -/
theorem C3_fullhistory_lastwriter_witness :
    ((nwe_repaint_full_history [0, 1] 1 1 2).mid.getD 0 none
        = nweLocalMid [0, 1] 1 (min 2 (lastTouch 0 2 2 + 1))
            (lastTouch 0 2 2) (lastTouch 0 2 2 - 0))
    ∧ ((nwe_repaint_full_history [0, 1] 1 1 2).mae.getD 0 none
        = saeFinal [0, 1] 1 1 (min 2 (lastTouch 0 2 2 + 1)) (lastTouch 0 2 2))
    ∧ ((nwe_repaint_full_history [0, 1] 1 1 2).upper.getD 0 none
        = oadd (nweLocalMid [0, 1] 1 (min 2 (lastTouch 0 2 2 + 1))
              (lastTouch 0 2 2) (lastTouch 0 2 2 - 0))
            (saeFinal [0, 1] 1 1 (min 2 (lastTouch 0 2 2 + 1)) (lastTouch 0 2 2)))
    ∧ ((nwe_repaint_full_history [0, 1] 1 1 2).lower.getD 0 none
        = osub (nweLocalMid [0, 1] 1 (min 2 (lastTouch 0 2 2 + 1))
              (lastTouch 0 2 2) (lastTouch 0 2 2 - 0))
            (saeFinal [0, 1] 1 1 (min 2 (lastTouch 0 2 2 + 1)) (lastTouch 0 2 2)))
    ∧ (0 ≤ lastTouch 0 2 2 ∧ lastTouch 0 2 2 < 2
        ∧ lastTouch 0 2 2 - 0 < min 2 (lastTouch 0 2 2 + 1))
    ∧ (∀ u, u < 2 → 0 ≤ u → u - 0 < min 2 (u + 1) → u ≤ lastTouch 0 2 2) :=
  C3_fullhistory_lastwriter [0, 1] 1 1 2 0 (by norm_num) (by norm_num)

/-- C3 counterexample: on the series [0, 1] with h = 1, mult = 1, window = 2,
the final mid value at position 0 is the one written by step t = 1 (offset 1),
namely exp(-1/2)/(exp(-1/2) + 1), which differs from the value some 0 written
by the step t = p = 0 — the largest step touching p is not p itself. -/
theorem C3_fullhistory_cex :
    (nwe_repaint_full_history [0, 1] 1 1 2).mid.getD 0 none
        = some (Real.exp (-(1 / 2)) / (Real.exp (-(1 / 2)) + 1))
    ∧ nweLocalMid [0, 1] 1 1 0 0 = some 0
    ∧ (nwe_repaint_full_history [0, 1] 1 1 2).mid.getD 0 none
        ≠ nweLocalMid [0, 1] 1 1 0 0 := by
  have hstep0 : nweLocalMid [0, 1] 1 1 0 0 = some 0 := by
    rw [nweLocalMid_eq _ _ _ _ _ (by norm_num)]
    norm_num [Finset.sum_range_succ, gauss, List.getD]
  have hfin : (nwe_repaint_full_history [0, 1] 1 1 2).mid.getD 0 none
      = some (Real.exp (-(1 / 2)) / (Real.exp (-(1 / 2)) + 1)) := by
    unfold nwe_repaint_full_history
    dsimp only
    rw [getD_map_range, if_pos (by norm_num), fhColumn_apply _ _ _ (by norm_num),
      if_pos (by norm_num)]
    rw [(by norm_num [lastTouch] : lastTouch 0 2 ([0, 1] : List ℝ).length = 1)]
    rw [nweLocalMid_eq _ _ _ _ _ (by norm_num)]
    rw [(by norm_num : min 2 (1 + 1) = 2)]
    norm_num [Finset.sum_range_succ, gauss, List.getD]
  refine ⟨hfin, hstep0, ?_⟩
  rw [hfin, hstep0]
  have hpos : 0 < Real.exp (-(1 / 2)) / (Real.exp (-(1 / 2)) + 1) := by positivity
  simp only [ne_eq, Option.some.injEq]
  exact ne_of_gt hpos

/-- Reading the mid column of nwe_repaint_on_last. -/
lemma rol_mid_getD (src : List ℝ) (h mult : ℝ) (window p : ℕ) (hp : p < src.length) :
    (nwe_repaint_on_last src h mult window).mid.getD p none
      = if src.length - min window src.length ≤ p then
          nweLocalMid src h (min window src.length) (src.length - 1) (src.length - 1 - p)
        else none := by
  unfold nwe_repaint_on_last
  dsimp only
  rw [rol_col_getD _ _ _ _ hp]

/-- Reading the mae column of nwe_repaint_on_last: one scalar for the whole
trailing window. -/
lemma rol_mae_getD (src : List ℝ) (h mult : ℝ) (window p : ℕ) (hp : p < src.length) :
    (nwe_repaint_on_last src h mult window).mae.getD p none
      = if src.length - min window src.length ≤ p then
          saeFinal src h mult (min window src.length) (src.length - 1)
        else none := by
  unfold nwe_repaint_on_last
  dsimp only
  rw [rol_col_getD _ _ _ _ hp]

/-- Reading the upper column of nwe_repaint_on_last. -/
lemma rol_upper_getD (src : List ℝ) (h mult : ℝ) (window p : ℕ) (hp : p < src.length) :
    (nwe_repaint_on_last src h mult window).upper.getD p none
      = if src.length - min window src.length ≤ p then
          oadd (nweLocalMid src h (min window src.length) (src.length - 1)
              (src.length - 1 - p))
            (saeFinal src h mult (min window src.length) (src.length - 1))
        else none := by
  unfold nwe_repaint_on_last
  dsimp only
  rw [rol_col_getD _ _ _ _ hp]

/-- Reading the lower column of nwe_repaint_on_last. -/
lemma rol_lower_getD (src : List ℝ) (h mult : ℝ) (window p : ℕ) (hp : p < src.length) :
    (nwe_repaint_on_last src h mult window).lower.getD p none
      = if src.length - min window src.length ≤ p then
          osub (nweLocalMid src h (min window src.length) (src.length - 1)
              (src.length - 1 - p))
            (saeFinal src h mult (min window src.length) (src.length - 1))
        else none := by
  unfold nwe_repaint_on_last
  dsimp only
  rw [rol_col_getD _ _ _ _ hp]

/-- C4 (amended): only the non-repaint mode clamps the lookback window at 500:
for every series and parameters, nwe_norepaint with window = 10000 returns
exactly the output of window = 500. -/
theorem C4_norepaint_clamp (src : List ℝ) (h mult : ℝ) :
    nwe_norepaint src h mult 10000 = nwe_norepaint src h mult 500 := by
  have h1 : min (10000 : ℕ) 500 = 500 := by omega
  have h2 : min (500 : ℕ) 500 = 500 := by omega
  have hmid : noRepMid src h 10000 = noRepMid src h 500 := by
    funext t
    simp only [noRepMid, noRepWeights, h1, h2]
  have hmae : noRepMae src h mult 10000 = noRepMae src h mult 500 := by
    funext t
    simp only [noRepMae, noRepAbsErr, noRepWeights, hmid, h1, h2]
  simp only [nwe_norepaint, hmid, hmae]

/-- C4 counterexample: the repaint-on-last mode has no 500 cap: on a series of
length 501, window = 10000 populates position 0 while window = 500 leaves it
undefined, so the two outputs differ — the claim fails for that mode. -/
theorem C4_window_clamp_cex :
    ((nwe_repaint_on_last (List.replicate 501 (0 : ℝ)) 1 1 10000).mid.getD 0 none).isSome
        = true
    ∧ (nwe_repaint_on_last (List.replicate 501 (0 : ℝ)) 1 1 500).mid.getD 0 none
        = none := by
  constructor
  · rw [rol_mid_getD (List.replicate 501 (0 : ℝ)) 1 1 10000 0
      (by norm_num [List.length_replicate])]
    simp only [List.length_replicate]
    rw [if_pos (by norm_num)]
    exact nweLocalMid_isSome _ _ _ _ _ (by norm_num)
  · rw [rol_mid_getD (List.replicate 501 (0 : ℝ)) 1 1 500 0
      (by norm_num [List.length_replicate])]
    simp only [List.length_replicate]
    rw [if_neg (by norm_num)]

/-- The bearish and the bullish crossing tests of one pair can never hold
together: the first pair forces mae < 0, the second mae > 0. -/
lemma not_bear_and_bull (p0 p1 m e : ℝ) :
    ¬(bearishCond p0 p1 m e ∧ bullishCond p0 p1 m e) := by
  rintro ⟨hb, hl⟩
  unfold bearishCond at hb
  unfold bullishCond at hl
  rcases hb with ⟨hb1, hb2⟩
  rcases hl with ⟨hl1, hl2⟩
  linarith

/-- sigVal with all three inputs defined. -/
lemma sigVal_eq_of_some (src : List ℝ) (mid mae : List (Option ℝ)) (k : ℕ) (m m2 e : ℝ)
    (hm : mid.getD k none = some m) (hm2 : mid.getD (k + 1) none = some m2)
    (he : mae.getD k none = some e) :
    sigVal src mid mae k
      = if bullishCond (src.getD k 0) (src.getD (k + 1) 0) m e then 1
        else if bearishCond (src.getD k 0) (src.getD (k + 1) 0) m e then -1
        else 0 := by
  unfold sigVal
  rw [hm, hm2, he]

/-- sigVal with an undefined input. -/
lemma sigVal_eq_zero_of_none (src : List ℝ) (mid mae : List (Option ℝ)) (k : ℕ)
    (hnone : mid.getD k none = none ∨ mid.getD (k + 1) none = none
      ∨ mae.getD k none = none) :
    sigVal src mid mae k = 0 := by
  unfold sigVal
  cases hA : mid.getD k none with
  | none => rfl
  | some m =>
      cases hB : mid.getD (k + 1) none with
      | none => rfl
      | some m2 =>
          cases hC : mae.getD k none with
          | none => rfl
          | some e =>
              rcases hnone with h1 | h1 | h1
              · rw [hA] at h1; exact absurd h1 (Option.some_ne_none m)
              · rw [hB] at h1; exact absurd h1 (Option.some_ne_none m2)
              · rw [hC] at h1; exact absurd h1 (Option.some_ne_none e)

/-- C5: CrossingDetector rule: for every pair (k, k+1) inside the series with
mid[k], mid[k+1] and mae[k] all defined, the signal at position k+1 is -1
(bearishCross) exactly when price[k] > mid[k]+mae[k] and price[k+1] < mid[k]+mae[k],
and is 1 (bullishCross) exactly when price[k] < mid[k]-mae[k] and
price[k+1] > mid[k]-mae[k] — both bands evaluated at the older position k; a
pair with an undefined required input yields signal 0. -/
theorem C5_crossing_detector (src : List ℝ) (mid mae : List (Option ℝ)) (k : ℕ)
    (hk : k + 1 < src.length) :
    (∀ m m2 e : ℝ, mid.getD k none = some m → mid.getD (k + 1) none = some m2 →
        mae.getD k none = some e →
        (((generate_signals src mid mae).getD (k + 1) 0 = -1)
            ↔ bearishCond (src.getD k 0) (src.getD (k + 1) 0) m e)
        ∧ (((generate_signals src mid mae).getD (k + 1) 0 = 1)
            ↔ bullishCond (src.getD k 0) (src.getD (k + 1) 0) m e))
    ∧ ((mid.getD k none = none ∨ mid.getD (k + 1) none = none
          ∨ mae.getD k none = none)
        → (generate_signals src mid mae).getD (k + 1) 0 = 0) := by
  have hsig : (generate_signals src mid mae).getD (k + 1) 0 = sigVal src mid mae k := by
    rw [generate_signals_getD src mid mae (k + 1) hk, if_pos ⟨by omega, by omega⟩]
    norm_num
  constructor
  · intro m m2 e hm hm2 he
    rw [hsig, sigVal_eq_of_some src mid mae k m m2 e hm hm2 he]
    by_cases hbull : bullishCond (src.getD k 0) (src.getD (k + 1) 0) m e
    · rw [if_pos hbull]
      exact ⟨iff_of_false (by norm_num)
          (fun hbear => not_bear_and_bull _ _ _ _ ⟨hbear, hbull⟩),
        iff_of_true rfl hbull⟩
    · rw [if_neg hbull]
      by_cases hbear : bearishCond (src.getD k 0) (src.getD (k + 1) 0) m e
      · rw [if_pos hbear]
        exact ⟨iff_of_true rfl hbear, iff_of_false (by norm_num) hbull⟩
      · rw [if_neg hbear]
        exact ⟨iff_of_false (by norm_num) hbear, iff_of_false (by norm_num) hbull⟩
  · intro hnone
    rw [hsig, sigVal_eq_zero_of_none src mid mae k hnone]

/-- C5 witness: the crossing characterization at the concrete pair
price = [2, 0], mid = [some 0, some 0], mae = [some 1], k = 0. -/
theorem C5_crossing_detector_witness :
    (∀ m m2 e : ℝ,
        ([some 0, some 0] : List (Option ℝ)).getD 0 none = some m →
        ([some 0, some 0] : List (Option ℝ)).getD (0 + 1) none = some m2 →
        ([some 1] : List (Option ℝ)).getD 0 none = some e →
        (((generate_signals [2, 0] [some 0, some 0] [some 1]).getD (0 + 1) 0 = -1)
            ↔ bearishCond (([2, 0] : List ℝ).getD 0 0) (([2, 0] : List ℝ).getD (0 + 1) 0) m e)
        ∧ (((generate_signals [2, 0] [some 0, some 0] [some 1]).getD (0 + 1) 0 = 1)
            ↔ bullishCond (([2, 0] : List ℝ).getD 0 0) (([2, 0] : List ℝ).getD (0 + 1) 0) m e))
    ∧ ((([some 0, some 0] : List (Option ℝ)).getD 0 none = none
          ∨ ([some 0, some 0] : List (Option ℝ)).getD (0 + 1) none = none
          ∨ ([some 1] : List (Option ℝ)).getD 0 none = none)
        → (generate_signals [2, 0] [some 0, some 0] [some 1]).getD (0 + 1) 0 = 0) :=
  C5_crossing_detector [2, 0] [some 0, some 0] [some 1] 0 (by norm_num)

/-- C7 (amended): the source performs no eager validation and raises no
InvalidParameter or EmptyInput: for every bandwidth h ≠ 0, every window ≥ 1,
every errorMultiplier (negative included) and every series (empty included),
each mode runs to completion and returns ordinary index-aligned columns — in
particular the invalid calls with bandwidth < 0, errorMultiplier < 0 or an
empty series are accepted. (Bandwidth 0 and window 0 do fail in the Python,
but inside the computation — a ZeroDivisionError in the kernel and a pandas
rolling error — not through an eager parameter check; those two error paths
lie outside this exact-real embedding and outside this theorem's hypotheses.) -/
theorem C7_no_validation (src : List ℝ) (h mult : ℝ) (window : ℕ)
    (hh : h ≠ 0) (hw : 1 ≤ window) :
    (nwe_norepaint src h mult window).mid.length = src.length
    ∧ (nwe_norepaint src h mult window).upper.length = src.length
    ∧ (nwe_norepaint src h mult window).lower.length = src.length
    ∧ (nwe_norepaint src h mult window).mae.length = src.length
    ∧ (nwe_repaint_on_last src h mult window).mid.length = src.length
    ∧ (nwe_repaint_full_history src h mult window).mid.length = src.length := by
  unfold nwe_norepaint nwe_repaint_on_last nwe_repaint_full_history
  refine ⟨by simp, by simp, by simp, by simp, by simp, by simp⟩

/-- C7 witness: the no-validation theorem at the invalid call bandwidth = -1,
errorMultiplier = -1, window = 1 on the series [5]. -/
theorem C7_no_validation_witness :
    (nwe_norepaint [5] (-1) (-1) 1).mid.length = 1
    ∧ (nwe_norepaint [5] (-1) (-1) 1).upper.length = 1
    ∧ (nwe_norepaint [5] (-1) (-1) 1).lower.length = 1
    ∧ (nwe_norepaint [5] (-1) (-1) 1).mae.length = 1
    ∧ (nwe_repaint_on_last [5] (-1) (-1) 1).mid.length = 1
    ∧ (nwe_repaint_full_history [5] (-1) (-1) 1).mid.length = 1 :=
  C7_no_validation [5] (-1) (-1) 1 (by norm_num) (by norm_num)

/-- C7 counterexample: with bandwidth h = -1 (invalid per the claim) on the
series [5] the computation proceeds and returns mid = [5], and on an empty
series it returns an empty result — no InvalidParameter or EmptyInput error
interrupts the call. -/
theorem C7_no_validation_cex :
    (nwe_norepaint [5] (-1) 1 1).mid = [5]
    ∧ (nwe_norepaint ([] : List ℝ) 1 3 500).mid = [] := by
  constructor
  · have hval : noRepMid [5] (-1) 1 0 = 5 := by
      rw [noRepMid_eq]
      rw [(by omega : min (min 1 500) (0 + 1) = 1)]
      norm_num [Finset.sum_range_one, gauss, List.getD, Real.exp_zero]
    have hrange : List.range 1 = [0] := rfl
    simp [nwe_norepaint, hrange, hval]
  · simp [nwe_norepaint]

/-- C8: WindowRegressor scalar error and domain: with L = min(window, n), every
trailing position p ≥ n - L of nwe_repaint_on_last gets mid[p] = localMid(n-1-p)
with defined mid/upper/lower, and mae[p] is the single scalar
(Σ_i |price[n-1-i] - localMid(i)|) / L * errorMultiplier, uniform over the
window; every position p < n - L is undefined in all four columns. -/
theorem C8_window_regressor (src : List ℝ) (h mult : ℝ) (window p : ℕ)
    (hw : 1 ≤ window) (hp : p < src.length) :
    (src.length - min window src.length ≤ p →
      ((nwe_repaint_on_last src h mult window).mid.getD p none
          = nweLocalMid src h (min window src.length) (src.length - 1)
              (src.length - 1 - p))
      ∧ ((nwe_repaint_on_last src h mult window).mae.getD p none
          = some ((∑ i ∈ Finset.range (min window src.length),
              |src.getD (src.length - 1 - i) 0
                - (nweLocalMid src h (min window src.length) (src.length - 1) i).getD 0|)
              / (((min window src.length : ℕ)) : ℝ) * mult))
      ∧ ((nwe_repaint_on_last src h mult window).mid.getD p none).isSome = true
      ∧ ((nwe_repaint_on_last src h mult window).upper.getD p none).isSome = true
      ∧ ((nwe_repaint_on_last src h mult window).lower.getD p none).isSome = true)
    ∧ (p < src.length - min window src.length →
      ((nwe_repaint_on_last src h mult window).mid.getD p none = none)
      ∧ ((nwe_repaint_on_last src h mult window).upper.getD p none = none)
      ∧ ((nwe_repaint_on_last src h mult window).lower.getD p none = none)
      ∧ ((nwe_repaint_on_last src h mult window).mae.getD p none = none)) := by
  have hL : 1 ≤ min window src.length := by omega
  constructor
  · intro hin
    refine ⟨?_, ?_, ?_, ?_, ?_⟩
    · rw [rol_mid_getD src h mult window p hp, if_pos hin]
    · rw [rol_mae_getD src h mult window p hp, if_pos hin,
        saeFinal_eq _ _ _ _ _ hL]
    · rw [rol_mid_getD src h mult window p hp, if_pos hin]
      exact nweLocalMid_isSome _ _ _ _ _ hL
    · rw [rol_upper_getD src h mult window p hp, if_pos hin,
        nweLocalMid_eq _ _ _ _ _ hL, saeFinal_eq _ _ _ _ _ hL]
      rfl
    · rw [rol_lower_getD src h mult window p hp, if_pos hin,
        nweLocalMid_eq _ _ _ _ _ hL, saeFinal_eq _ _ _ _ _ hL]
      rfl
  · intro hout
    exact ⟨by rw [rol_mid_getD src h mult window p hp, if_neg (by omega)],
      by rw [rol_upper_getD src h mult window p hp, if_neg (by omega)],
      by rw [rol_lower_getD src h mult window p hp, if_neg (by omega)],
      by rw [rol_mae_getD src h mult window p hp, if_neg (by omega)]⟩

/-- C8 witness: the window-regressor characterization at the series [1, 2]
with h = 1, mult = 1, window = 5, position p = 0. -/
theorem C8_window_regressor_witness :
    (2 - min 5 2 ≤ 0 →
      ((nwe_repaint_on_last [1, 2] 1 1 5).mid.getD 0 none
          = nweLocalMid [1, 2] 1 (min 5 2) (2 - 1) (2 - 1 - 0))
      ∧ ((nwe_repaint_on_last [1, 2] 1 1 5).mae.getD 0 none
          = some ((∑ i ∈ Finset.range (min 5 2),
              |([1, 2] : List ℝ).getD (2 - 1 - i) 0
                - (nweLocalMid [1, 2] 1 (min 5 2) (2 - 1) i).getD 0|)
              / (((min 5 2 : ℕ)) : ℝ) * 1))
      ∧ ((nwe_repaint_on_last [1, 2] 1 1 5).mid.getD 0 none).isSome = true
      ∧ ((nwe_repaint_on_last [1, 2] 1 1 5).upper.getD 0 none).isSome = true
      ∧ ((nwe_repaint_on_last [1, 2] 1 1 5).lower.getD 0 none).isSome = true)
    ∧ (0 < 2 - min 5 2 →
      ((nwe_repaint_on_last [1, 2] 1 1 5).mid.getD 0 none = none)
      ∧ ((nwe_repaint_on_last [1, 2] 1 1 5).upper.getD 0 none = none)
      ∧ ((nwe_repaint_on_last [1, 2] 1 1 5).lower.getD 0 none = none)
      ∧ ((nwe_repaint_on_last [1, 2] 1 1 5).mae.getD 0 none = none)) :=
  C8_window_regressor [1, 2] 1 1 5 0 (by norm_num) (by norm_num)

/-- C9: total definedness of the non-repaint output: for a valid call the
divisor of mid[t] — the cached weight sum — is at least gauss(0,h) = 1, the
rolling mean of mae[t] always averages min(W, t+1) ≥ 1 samples, and both
output columns cover every index of the series: no position of the NonRepaint
result is undefined. -/
theorem C9_norepaint_defined (src : List ℝ) (h mult : ℝ) (window t : ℕ)
    (hh : 0 < h) (hw : 1 ≤ window) (ht : t < src.length) :
    (1 : ℝ) ≤ ((noRepWeights h window).take (min (min window 500) (t + 1))).sum
    ∧ 1 ≤ min (min window 500) (t + 1)
    ∧ (nwe_norepaint src h mult window).mid.length = src.length
    ∧ (nwe_norepaint src h mult window).mae.length = src.length := by
  refine ⟨?_, by omega, by simp [nwe_norepaint], by simp [nwe_norepaint]⟩
  rw [take_noRepWeights, sum_map_range]
  exact noRepWeightSum_ge_one h _ (by omega)

/-- C9 witness: the definedness bounds at the series [1] with h = 1, mult = 1,
window = 1, t = 0. -/
theorem C9_norepaint_defined_witness :
    (1 : ℝ) ≤ ((noRepWeights 1 1).take (min (min 1 500) (0 + 1))).sum
    ∧ 1 ≤ min (min 1 500) (0 + 1)
    ∧ (nwe_norepaint [1] 1 1 1).mid.length = 1
    ∧ (nwe_norepaint [1] 1 1 1).mae.length = 1 :=
  C9_norepaint_defined [1] 1 1 1 0 (by norm_num) (by norm_num) (by norm_num)

/-- C10 (amended): the bearish and bullish tests of one pair are jointly
unsatisfiable (together they force mae[k] > 0 and mae[k] < 0), so a
simultaneous double cross never occurs for any input; in the code the bullish
assignment executes after the bearish one, so the iteration's value at k+1 is
1 if the bullish test holds, else -1 if the bearish test holds, else the prior
value. -/
theorem C10_bullish_priority (src : List ℝ) (mid mae : List (Option ℝ)) (sig : ℕ → ℤ)
    (k : ℕ) (m m2 e : ℝ) (hm : mid.getD k none = some m)
    (hm2 : mid.getD (k + 1) none = some m2) (he : mae.getD k none = some e) :
    (sigStep src mid mae sig k (k + 1)
        = if bullishCond (src.getD k 0) (src.getD (k + 1) 0) m e then 1
          else if bearishCond (src.getD k 0) (src.getD (k + 1) 0) m e then -1
          else sig (k + 1))
    ∧ ¬(bearishCond (src.getD k 0) (src.getD (k + 1) 0) m e
        ∧ bullishCond (src.getD k 0) (src.getD (k + 1) 0) m e) := by
  constructor
  · unfold sigStep
    rw [hm, hm2, he]
    dsimp only
    split_ifs <;> simp [Function.update_apply]
  · exact not_bear_and_bull _ _ _ _

/-- C10 witness: the priority characterization at the concrete pair
price = [0, 0], mid = [some 0, some 0], mae = [some 1], k = 0, on the all-zero
signal state. -/
theorem C10_bullish_priority_witness :
    (sigStep [0, 0] [some 0, some 0] [some 1] (fun _ => 0) 0 (0 + 1)
        = if bullishCond (([0, 0] : List ℝ).getD 0 0) (([0, 0] : List ℝ).getD (0 + 1) 0) 0 1
            then 1
          else if bearishCond (([0, 0] : List ℝ).getD 0 0) (([0, 0] : List ℝ).getD (0 + 1) 0) 0 1
            then -1
          else (fun _ => (0 : ℤ)) (0 + 1))
    ∧ ¬(bearishCond (([0, 0] : List ℝ).getD 0 0) (([0, 0] : List ℝ).getD (0 + 1) 0) 0 1
        ∧ bullishCond (([0, 0] : List ℝ).getD 0 0) (([0, 0] : List ℝ).getD (0 + 1) 0) 0 1) :=
  C10_bullish_priority [0, 0] [some 0, some 0] [some 1] (fun _ => 0) 0 0 0 1 rfl rfl rfl

/-- C10 counterexample: a simultaneous double cross is impossible for every
input pair — in particular also at the concrete bands mid = 0, mae = -1 of a
negative errorMultiplier — so the claimed scenario never reaches the
overwriting assignment. -/
theorem C10_double_cross_cex :
    (∀ p0 p1 m e : ℝ, ¬(bearishCond p0 p1 m e ∧ bullishCond p0 p1 m e))
    ∧ ¬(bearishCond 0 0 0 (-1) ∧ bullishCond 0 0 0 (-1)) :=
  ⟨fun p0 p1 m e => not_bear_and_bull p0 p1 m e, not_bear_and_bull 0 0 0 (-1)⟩

end
